import Mathlib

/-!
Shallow embedding of the PIPE estimation core (src/pipe/psf.py, src/psf_worker.py,
src/syntstar.py) over exact rationals, with external numeric routines (numpy's
`lstsq`, scipy's `LSQBivariateSpline` and `nnls`, `np.std`, floating
trigonometry) abstracted as explicit functional parameters.  Machine floats are
idealised as ℚ (or ℝ for the trigonometric round-trip), so float-specific
artefacts (NaN payloads, rounding) are outside the model and noted where
relevant.  All definitions are translated from the source; the two helpers
imported from modules absent from the source tree (`coo_mat`, `psf_integral`)
are handled where they occur: `coo_mat` is modelled from the spec and
`psf_integral` is abstracted as a functional parameter.
-/

namespace PIPE

/-- Sum of `f 0 + ... + f (k-1)`, the shallow counterpart of `np.sum` over a
vector of length `k`. -/
def rsum (k : ℕ) (f : ℕ → ℚ) : ℚ := ((List.range k).map f).sum

/-- `np.linspace a b N`: `N` evenly spaced points from `a` to `b` inclusive;
for `N = 1` numpy returns the single point `a`. -/
def np_linspace (a b : ℚ) (N : ℕ) : List ℚ :=
  (List.range N).map (fun i => if N ≤ 1 then a else a + i * (b - a) / ((N : ℚ) - 1))

/-- Python's `int()` on a rational: truncation toward zero. -/
def int_trunc (q : ℚ) : ℤ := if 0 ≤ q then ⌊q⌋ else -⌊-q⌋

/-- Insert into a sorted list (ascending). -/
def insSorted (a : ℚ) : List ℚ → List ℚ
  | [] => [a]
  | b :: r => if a ≤ b then a :: b :: r else b :: insSorted a r

/-- Ascending insertion sort. -/
def sortAsc (l : List ℚ) : List ℚ := l.foldr insSorted []

/-- `np.nanmedian` on a list of rationals (no NaNs representable): middle
element of the sorted list, or mean of the two middle elements. -/
def median (l : List ℚ) : ℚ :=
  let s := sortAsc l
  let k := l.length
  if k = 0 then 0
  else if k % 2 = 1 then s.getD (k / 2) 0
  else (s.getD (k / 2 - 1) 0 + s.getD (k / 2) 0) / 2

/-- `np.max` of a list (maximum element; junk value 0 on the empty list, where
numpy raises instead). -/
def npMax : List ℚ → ℚ
  | [] => 0
  | a :: r => r.foldl max a

/-!
## `_least_square` (src/pipe/psf.py lines 221-235)

The underlying `numpy.linalg.lstsq` call is an external numeric routine that may
raise; we model the sequence of outcomes of successive calls on the *same*
inputs as an oracle `lstsq : ℕ → Except ε α` (`lstsq k` = outcome of the k-th
call).  The source wraps the solve in `try: return lstsq(...)  except: return
lstsq(...)` — on the non-negative branch `nnls` is returned directly.
-/

/-- Translation of `_least_square`: on `non_negative` return the `nnls` result;
otherwise attempt the solve, and on an exception retry once with identical
inputs, surfacing only the second outcome. -/
def least_square {ε α : Type} (nnls_res : α) (lstsq : ℕ → Except ε α)
    (non_negative : Bool) : Except ε α :=
  if non_negative then Except.ok nnls_res
  else
    match lstsq 0 with
    | Except.ok v => Except.ok v
    | Except.error _ => lstsq 1

/-!
## `rotate_position` / `derotate_position` (src/syntstar.py lines 164-180)

Exact real-arithmetic model of the rotation convention; `np.deg2rad d = d·π/180`.
-/

/-- Translation of `rotate_position`:
`(x·cos θ + y·sin θ, -x·sin θ + y·cos θ)` with `θ` converted from degrees. -/
noncomputable def rotate_position (x y rolldeg : ℝ) : ℝ × ℝ :=
  (x * Real.cos (rolldeg * (Real.pi / 180)) + y * Real.sin (rolldeg * (Real.pi / 180)),
   -x * Real.sin (rolldeg * (Real.pi / 180)) + y * Real.cos (rolldeg * (Real.pi / 180)))

/-- Translation of `derotate_position`: the same transform with negated angle. -/
noncomputable def derotate_position (xroll yroll rolldegs : ℝ) : ℝ × ℝ :=
  rotate_position xroll yroll (-rolldegs)

/-!
## Single-source fitter `fit` (src/pipe/psf.py lines 17-103)

A frame is an `n × n` image (PIPE frames are square); pixel `(r, c)` has row
`r` (= y) and column `c` (= x).  `coo_mat` (imported from `pipe.reduce`, not in
the source tree) is modelled from the spec: it yields the offset grids
`x - xc`, `y - yc` used to build circular apertures around a source centre.
`psf_integral` (from `pipe.spline_pca`, also absent) is abstracted as a
functional parameter `psf_int` mapping a PSF basis function to its integral.
The least-squares solver is abstracted as a functional parameter `ls` taking
the row index type, the number of columns, the design matrix (column index →
row → entry), and the target vector, and returning the coefficient vector.
A PSF basis function takes (row-offset, column-offset) and returns a sample,
so the grid sample of `psf_list[m](ycoo-yk[n], xcoo-xk[n])` at pixel `(r, c)`
is `psf_m (r - yc - yk n) (c - xc - xk n)`.
-/

/-- Pixel of an `n × n` frame: (row, column). -/
abbrev Pix (n : ℕ) := Fin n × Fin n

/-- Column coordinate (x) of a pixel. -/
def px {n : ℕ} (p : Pix n) : ℚ := ((p.2 : ℕ) : ℚ)

/-- Row coordinate (y) of a pixel. -/
def py {n : ℕ} (p : Pix n) : ℚ := ((p.1 : ℕ) : ℚ)

/-- Modelled from the spec: `coo_mat` (from `pipe.reduce`, absent from the
source tree) returns the coordinate offset grids `(x - xc, y - yc)` used to
build circular apertures around a source centre (row = y, column = x). -/
def coo_mat {n : ℕ} (xc yc : ℚ) (p : Pix n) : ℚ × ℚ := (px p - xc, py p - yc)

/-- The rows seen by the solver: the pixels selected by the aperture
(`frame[aperture]`). -/
def ApPix (n : ℕ) (ap : Pix n → Bool) : Type := {p : Pix n // ap p = true}

/-- Junk PSF for out-of-range list access. -/
def zpsf : ℚ → ℚ → ℚ := fun _ _ => 0

/-- Number of sub-pixel blur offsets: `(2·krn_rad+1)²` (`Nk` in the source). -/
def Nk (krn_rad : ℕ) : ℕ := (2 * krn_rad + 1) * (2 * krn_rad + 1)

/-- The 1-D blur-offset grid
`xkern = np.linspace(-krn_scl·krn_rad, krn_scl·krn_rad, 2·krn_rad+1)`. -/
def xkern (krn_scl : ℚ) (krn_rad : ℕ) (i : ℕ) : ℚ :=
  (np_linspace (-(krn_scl * krn_rad)) (krn_scl * krn_rad) (2 * krn_rad + 1)).getD i 0

/-- Flattened meshgrid x-offsets: `xk[m] = xkern[m mod (2·krn_rad+1)]`. -/
def xk (krn_scl : ℚ) (krn_rad : ℕ) (m : ℕ) : ℚ :=
  xkern krn_scl krn_rad (m % (2 * krn_rad + 1))

/-- Flattened meshgrid y-offsets: `yk[m] = xkern[m / (2·krn_rad+1)]`. -/
def yk (krn_scl : ℚ) (krn_rad : ℕ) (m : ℕ) : ℚ :=
  xkern krn_scl krn_rad (m / (2 * krn_rad + 1))

/-- Sample of a PSF basis function shifted by blur offset `(ykn, xkn)` around
centre `(xc, yc)`, at a frame pixel. -/
def psf_at {n : ℕ} (f : ℚ → ℚ → ℚ) (xc yc xkn ykn : ℚ) (p : Pix n) : ℚ :=
  f (py p - yc - ykn) (px p - xc - xkn)

/-- The inputs of `fit`, with the external solver (`ls`) and `psf_integral`
(`psf_int`) as functional parameters. -/
structure FitArgs (n : ℕ) where
  ls : (R : Type) → ℕ → (ℕ → R → ℚ) → (R → ℚ) → ℕ → ℚ
  psf_int : (ℚ → ℚ → ℚ) → ℚ
  psf_list : List (ℚ → ℚ → ℚ)
  frame : Pix n → ℚ
  noise : Pix n → ℚ
  mask : Pix n → Bool
  xc : ℚ
  yc : ℚ
  radius : ℚ
  krn_scl : ℚ
  krn_rad : ℕ
  bg_fit : ℕ

/-- The result tuple of `fit`. -/
structure FitResult (n : ℕ) where
  psf : Pix n → ℚ
  bg : ℚ
  kmat : ℕ → ℕ → ℚ
  flux : ℚ
  coeffs : List ℚ

/-- `aperture = (xmat² + ymat² <= radius²) * mask`. -/
def fit_aperture {n : ℕ} (A : FitArgs n) (p : Pix n) : Bool :=
  (decide ((coo_mat A.xc A.yc p).1 ^ 2 + (coo_mat A.xc A.yc p).2 ^ 2 ≤ A.radius ^ 2))
    && A.mask p

/-- The noise-weighted observation vector `fvec/nvec` on the aperture rows. -/
def fit_rhs {n : ℕ} (A : FitArgs n) (r : ApPix n (fit_aperture A)) : ℚ :=
  A.frame r.val / A.noise r.val

/-- Pass-1 design matrix: one column per blur offset (first PSF-library entry,
noise-weighted), plus a trailing inverse-noise background column iff
`bg_fit = 0`. -/
def fit_psfs1 {n : ℕ} (A : FitArgs n) (c : ℕ) (p : Pix n) : ℚ :=
  if c < Nk A.krn_rad then
    psf_at (A.psf_list.getD 0 zpsf) A.xc A.yc
      (xk A.krn_scl A.krn_rad c) (yk A.krn_scl A.krn_rad c) p / A.noise p
  else if A.bg_fit = 0 ∧ c = Nk A.krn_rad then 1 / A.noise p
  else 0

/-- Number of columns of the pass-1 system. -/
def fit_cols1 {n : ℕ} (A : FitArgs n) : ℕ :=
  Nk A.krn_rad + (if A.bg_fit = 0 then 1 else 0)

/-- Pass-1 solve: the blur-kernel coefficient vector `kvec`. -/
def fit_kvec {n : ℕ} (A : FitArgs n) : ℕ → ℚ :=
  A.ls (ApPix n (fit_aperture A)) (fit_cols1 A)
    (fun c r => fit_psfs1 A c r.val) (fit_rhs A)

/-- Pass-2 design matrix: one column per PSF-library entry (its `kvec`-blurred
composite, noise-weighted), plus a trailing inverse-noise background column iff
`bg_fit = 0`. -/
def fit_psfs2 {n : ℕ} (A : FitArgs n) (c : ℕ) (p : Pix n) : ℚ :=
  if c < A.psf_list.length then
    (rsum (Nk A.krn_rad) (fun m =>
      fit_kvec A m * psf_at (A.psf_list.getD c zpsf) A.xc A.yc
        (xk A.krn_scl A.krn_rad m) (yk A.krn_scl A.krn_rad m) p)) / A.noise p
  else if A.bg_fit = 0 ∧ c = A.psf_list.length then 1 / A.noise p
  else 0

/-- Number of columns of the pass-2 system. -/
def fit_cols2 {n : ℕ} (A : FitArgs n) : ℕ :=
  A.psf_list.length + (if A.bg_fit = 0 then 1 else 0)

/-- Pass-2 solve: the PSF-component weight vector `w`. -/
def fit_w {n : ℕ} (A : FitArgs n) : ℕ → ℚ :=
  A.ls (ApPix n (fit_aperture A)) (fit_cols2 A)
    (fun c r => fit_psfs2 A c r.val) (fit_rhs A)

/-- The flux normalizer `wsum = Σ psf_norms·w[:last_w]` (background excluded;
`psf_norms m = psf_integral(psf_list[m])`). -/
def fit_wsum {n : ℕ} (A : FitArgs n) : ℚ :=
  rsum A.psf_list.length
    (fun m => A.psf_int (A.psf_list.getD m zpsf) * fit_w A m)

/-- Translation of `fit` (src/pipe/psf.py lines 17-103).  The composite PSF
image is accumulated over the full frame; `bg = w[-1]` iff `bg_fit = 0` else 0;
`kvec[:last_k] = kvec[:Nk]` and `w[:last_w] = w[:Npsf]` in either case; the
normalizer is clamped to 1 when it is exactly zero (the `np.isnan` branch has
no counterpart in exact arithmetic). -/
def fit {n : ℕ} (A : FitArgs n) : FitResult n :=
  let Npsf := A.psf_list.length
  let w := fit_w A
  let kvec := fit_kvec A
  let wsum0 := fit_wsum A
  let wsum := if wsum0 = 0 then 1 else wsum0
  { psf := fun p => rsum Npsf (fun m => rsum (Nk A.krn_rad) (fun m' =>
      w m * kvec m' * psf_at (A.psf_list.getD m zpsf) A.xc A.yc
        (xk A.krn_scl A.krn_rad m') (yk A.krn_scl A.krn_rad m') p)),
    bg := if A.bg_fit = 0 then w Npsf else 0,
    kmat := fun i j => kvec (i * (2 * A.krn_rad + 1) + j),
    flux := rsum (Nk A.krn_rad) kvec * wsum,
    coeffs := (List.range Npsf).map (fun m => w m / wsum) }

/-!
## Binary-source fitter `fit_binary` (src/pipe/psf.py lines 106-218)

Same conventions as `fit`: solver and `psf_integral` abstracted, pixels of a
square frame, `coo_mat` modelled from the spec.  `Npsf = len(psf_list0)` is
used to index both libraries, exactly as in the source.  The external mask is
optional (`if mask is not None`).
-/

/-- The inputs of `fit_binary`. -/
structure BinaryArgs (n : ℕ) where
  ls : (R : Type) → ℕ → (ℕ → R → ℚ) → (R → ℚ) → ℕ → ℚ
  psf_int : (ℚ → ℚ → ℚ) → ℚ
  psf_list0 : List (ℚ → ℚ → ℚ)
  psf_list1 : List (ℚ → ℚ → ℚ)
  frame : Pix n → ℚ
  noise : Pix n → ℚ
  mask : Option (Pix n → Bool)
  xc0 : ℚ
  yc0 : ℚ
  xc1 : ℚ
  yc1 : ℚ
  psfrad : ℚ
  fitrad : ℚ
  krn_scl : ℚ
  krn_rad : ℕ

/-- The result tuple of `fit_binary`. -/
structure FitResult2 (n : ℕ) where
  psf0 : Pix n → ℚ
  psf1 : Pix n → ℚ
  bg : ℚ
  kmat0 : ℕ → ℕ → ℚ
  kmat1 : ℕ → ℕ → ℚ
  flux0 : ℚ
  flux1 : ℚ
  coeffs0 : List ℚ
  coeffs1 : List ℚ

/-- Squared distance of a pixel from the centre of source 0
(`xmat0² + ymat0²`). -/
def d0sq {n : ℕ} (A : BinaryArgs n) (p : Pix n) : ℚ :=
  (coo_mat A.xc0 A.yc0 p).1 ^ 2 + (coo_mat A.xc0 A.yc0 p).2 ^ 2

/-- Squared distance of a pixel from the centre of source 1
(`xmat1² + ymat1²`). -/
def d1sq {n : ℕ} (A : BinaryArgs n) (p : Pix n) : ℚ :=
  (coo_mat A.xc1 A.yc1 p).1 ^ 2 + (coo_mat A.xc1 A.yc1 p).2 ^ 2

/-- `apt0 = xmat0² + ymat0² < psfrad²`: source 0's own PSF disk (strict). -/
def apt0 {n : ℕ} (A : BinaryArgs n) (p : Pix n) : Bool :=
  decide (d0sq A p < A.psfrad ^ 2)

/-- `apt1 = xmat1² + ymat1² < psfrad²`: source 1's own PSF disk (strict). -/
def apt1 {n : ℕ} (A : BinaryArgs n) (p : Pix n) : Bool :=
  decide (d1sq A p < A.psfrad ^ 2)

/-- Numeric 0/1 mask of `apt0` (numpy's array-times-boolean broadcast). -/
def apt0q {n : ℕ} (A : BinaryArgs n) (p : Pix n) : ℚ := if apt0 A p then 1 else 0

/-- Numeric 0/1 mask of `apt1`. -/
def apt1q {n : ℕ} (A : BinaryArgs n) (p : Pix n) : ℚ := if apt1 A p then 1 else 0

/-- `aperture = (notsel0 * notsel1 == 0)`, with `notselᵢ = distᵢ² > fitrad²`,
then intersected with the external mask when one is given. -/
def fit_binary_aperture {n : ℕ} (A : BinaryArgs n) (p : Pix n) : Bool :=
  (!(decide (d0sq A p > A.fitrad ^ 2) && decide (d1sq A p > A.fitrad ^ 2))) &&
    (match A.mask with
     | none => true
     | some m => m p)

/-- The noise-weighted observation vector `fvec/nvec` on the shared aperture. -/
def fit_binary_rhs {n : ℕ} (A : BinaryArgs n)
    (r : ApPix n (fit_binary_aperture A)) : ℚ :=
  A.frame r.val / A.noise r.val

/-- Pass-1 design matrix (`2·Nk + 1` columns): per-source blur-offset columns
using each source's first PSF-library entry masked to its own disk, plus one
shared inverse-noise background column. -/
def fit_binary_psfs1 {n : ℕ} (A : BinaryArgs n) (c : ℕ) (p : Pix n) : ℚ :=
  if c < Nk A.krn_rad then
    psf_at (A.psf_list0.getD 0 zpsf) A.xc0 A.yc0
        (xk A.krn_scl A.krn_rad c) (yk A.krn_scl A.krn_rad c) p
      * apt0q A p / A.noise p
  else if c < 2 * Nk A.krn_rad then
    psf_at (A.psf_list1.getD 0 zpsf) A.xc1 A.yc1
        (xk A.krn_scl A.krn_rad (c - Nk A.krn_rad))
        (yk A.krn_scl A.krn_rad (c - Nk A.krn_rad)) p
      * apt1q A p / A.noise p
  else if c = 2 * Nk A.krn_rad then 1 / A.noise p
  else 0

/-- Pass-1 solve: initial per-source blur coefficients (plus background). -/
def fit_binary_kvec1 {n : ℕ} (A : BinaryArgs n) : ℕ → ℚ :=
  A.ls (ApPix n (fit_binary_aperture A)) (2 * Nk A.krn_rad + 1)
    (fun c r => fit_binary_psfs1 A c r.val) (fit_binary_rhs A)

/-- Pass-2 design matrix (`2·Npsf + 1` columns): per-source composite PSFs
built from the pass-1 kernel, each masked to its source's disk, plus the
shared background column. -/
def fit_binary_psfs2 {n : ℕ} (A : BinaryArgs n) (c : ℕ) (p : Pix n) : ℚ :=
  if c < A.psf_list0.length then
    (rsum (Nk A.krn_rad) (fun m =>
      fit_binary_kvec1 A m *
        psf_at (A.psf_list0.getD c zpsf) A.xc0 A.yc0
          (xk A.krn_scl A.krn_rad m) (yk A.krn_scl A.krn_rad m) p *
        apt0q A p)) / A.noise p
  else if c < 2 * A.psf_list0.length then
    (rsum (Nk A.krn_rad) (fun m =>
      fit_binary_kvec1 A (m + Nk A.krn_rad) *
        psf_at (A.psf_list1.getD (c - A.psf_list0.length) zpsf) A.xc1 A.yc1
          (xk A.krn_scl A.krn_rad m) (yk A.krn_scl A.krn_rad m) p *
        apt1q A p)) / A.noise p
  else if c = 2 * A.psf_list0.length then 1 / A.noise p
  else 0

/-- Pass-2 solve: independent PSF-library weights per source (plus
background). -/
def fit_binary_w {n : ℕ} (A : BinaryArgs n) : ℕ → ℚ :=
  A.ls (ApPix n (fit_binary_aperture A)) (2 * A.psf_list0.length + 1)
    (fun c r => fit_binary_psfs2 A c r.val) (fit_binary_rhs A)

/-- Pass-3 design matrix (`2·Nk + 1` columns): blur-offset columns rebuilt
from the pass-2 composite PSFs, masked to each source's disk, plus the shared
background column. -/
def fit_binary_psfs3 {n : ℕ} (A : BinaryArgs n) (c : ℕ) (p : Pix n) : ℚ :=
  if c < Nk A.krn_rad then
    (rsum A.psf_list0.length (fun m =>
      fit_binary_w A m *
        psf_at (A.psf_list0.getD m zpsf) A.xc0 A.yc0
          (xk A.krn_scl A.krn_rad c) (yk A.krn_scl A.krn_rad c) p *
        apt0q A p)) / A.noise p
  else if c < 2 * Nk A.krn_rad then
    (rsum A.psf_list0.length (fun m =>
      fit_binary_w A (m + A.psf_list0.length) *
        psf_at (A.psf_list1.getD m zpsf) A.xc1 A.yc1
          (xk A.krn_scl A.krn_rad (c - Nk A.krn_rad))
          (yk A.krn_scl A.krn_rad (c - Nk A.krn_rad)) p *
        apt1q A p)) / A.noise p
  else if c = 2 * Nk A.krn_rad then 1 / A.noise p
  else 0

/-- Pass-3 solve: refined blur coefficients and background. -/
def fit_binary_kvec3 {n : ℕ} (A : BinaryArgs n) : ℕ → ℚ :=
  A.ls (ApPix n (fit_binary_aperture A)) (2 * Nk A.krn_rad + 1)
    (fun c r => fit_binary_psfs3 A c r.val) (fit_binary_rhs A)

/-- `wsum0 = Σ psf_norms0 · w[:Npsf]` — used raw, with no NaN/zero clamp. -/
def fit_binary_wsum0 {n : ℕ} (A : BinaryArgs n) : ℚ :=
  rsum A.psf_list0.length
    (fun m => A.psf_int (A.psf_list0.getD m zpsf) * fit_binary_w A m)

/-- `wsum1 = Σ psf_norms1 · w[Npsf:-1]` — used raw, with no NaN/zero clamp. -/
def fit_binary_wsum1 {n : ℕ} (A : BinaryArgs n) : ℚ :=
  rsum A.psf_list0.length
    (fun m => A.psf_int (A.psf_list1.getD m zpsf) *
      fit_binary_w A (A.psf_list0.length + m))

/-- Translation of `fit_binary` (src/pipe/psf.py lines 106-218): three
alternating least-squares passes, final composite per-source images masked to
each source's own disk, background taken from the pass-3 solve's last element,
and per-source flux-scales and coefficient vectors normalized by the raw
`wsum0`/`wsum1` (the source has no degenerate-normalization recovery here). -/
def fit_binary {n : ℕ} (A : BinaryArgs n) : FitResult2 n :=
  let Npsf := A.psf_list0.length
  let nk := Nk A.krn_rad
  let w := fit_binary_w A
  let kvec := fit_binary_kvec3 A
  { psf0 := fun p => rsum Npsf (fun m => rsum nk (fun m' =>
      kvec m' * w m *
        psf_at (A.psf_list0.getD m zpsf) A.xc0 A.yc0
          (xk A.krn_scl A.krn_rad m') (yk A.krn_scl A.krn_rad m') p *
        apt0q A p)),
    psf1 := fun p => rsum Npsf (fun m => rsum nk (fun m' =>
      kvec (m' + nk) * w (m + Npsf) *
        psf_at (A.psf_list1.getD m zpsf) A.xc1 A.yc1
          (xk A.krn_scl A.krn_rad m') (yk A.krn_scl A.krn_rad m') p *
        apt1q A p)),
    bg := kvec (2 * nk),
    kmat0 := fun i j => kvec (i * (2 * A.krn_rad + 1) + j),
    kmat1 := fun i j => kvec (nk + (i * (2 * A.krn_rad + 1) + j)),
    flux0 := rsum nk kvec * fit_binary_wsum0 A,
    flux1 := rsum nk (fun m' => kvec (nk + m')) * fit_binary_wsum1 A,
    coeffs0 := (List.range Npsf).map (fun m => w m / fit_binary_wsum0 A),
    coeffs1 := (List.range Npsf).map
      (fun m => w (Npsf + m) / fit_binary_wsum1 A) }

/-- A concrete instance of the binary fitter's inputs on a 1×1 frame: a solver
oracle returning the all-ones vector and a PSF integral that is identically
zero, so both flux normalizers degenerate to exactly zero while the raw
weights are 1. -/
def exBinaryArgs : BinaryArgs 1 :=
  { ls := fun _ _ _ _ => fun _ => 1
    psf_int := fun _ => 0
    psf_list0 := [fun _ _ => 1]
    psf_list1 := [fun _ _ => 1]
    frame := fun _ => 1
    noise := fun _ => 1
    mask := none
    xc0 := 0
    yc0 := 0
    xc1 := 0
    yc1 := 0
    psfrad := 1
    fitrad := 1
    krn_scl := 0
    krn_rad := 0 }

/-- The same instance with source 0 centred far outside the 1×1 frame, so the
frame's single pixel lies outside source 0's `psfrad` disk. -/
def exBinaryArgsFar : BinaryArgs 1 :=
  { exBinaryArgs with xc0 := 5 }

/-- A concrete instance of the single-source fitter's inputs on a 1×1 frame:
a solver oracle returning the coefficient vector `c ↦ c`, a PSF integral that
is identically zero (so the flux normalizer degenerates to exactly zero), and
one constant PSF-library entry. -/
def exFitArgs : FitArgs 1 :=
  { ls := fun _ _ _ _ => fun c => (c : ℚ)
    psf_int := fun _ => 0
    psf_list := [fun _ _ => 1]
    frame := fun _ => 1
    noise := fun _ => 1
    mask := fun _ => true
    xc := 0
    yc := 0
    radius := 1
    krn_scl := 0
    krn_rad := 0
    bg_fit := 0 }

/-!
## PSF Library Builder `make_psf` / `filter_pix` (src/psf_worker.py lines 16-45)

The external spline fitter `LSQBivariateSpline` is abstracted as a functional
parameter `fitO` taking the knot vector `t`, the polynomial degree, and the
selected sample rows `(x, y, value, weight)`, and returning the fitted surface
(evaluated pairwise, `grid=False`).  `np.std` (which involves a square root,
irrational over ℚ) is abstracted as a functional parameter `std`.  The sample
table `pix` is a list of rows `(x, y, value, uncertainty)`.
-/

/-- One row of the calibration sample table `pix`. -/
structure PixRow where
  x : ℚ
  y : ℚ
  val : ℚ
  err : ℚ

/-- Translation of `filter_pix` (src/psf_worker.py lines 38-45): evaluate the
surface at *every* sample position, set `k = 0.1·max(fit)`,
`s = std((value - fit)/(|fit| + k))`, and keep the samples with
`|value - fit| < clip·s·(|fit| + k)`. -/
def filter_pix (std : List ℚ → ℚ) (psf_spline : ℚ → ℚ → ℚ) (pix : List PixRow)
    (clip : ℚ) : List Bool :=
  let k := (1 / 10) * npMax (pix.map (fun smp => psf_spline smp.x smp.y))
  let s := std (pix.map (fun smp =>
    (smp.val - psf_spline smp.x smp.y) / (|psf_spline smp.x smp.y| + k)))
  pix.map (fun smp =>
    decide (|smp.val - psf_spline smp.x smp.y| <
      clip * s * (|psf_spline smp.x smp.y| + k)))

/-- The rows of `pix` selected by a boolean mask (`pix[sel]`). -/
def sel_rows (pix : List PixRow) (sel : List Bool) : List PixRow :=
  ((pix.zip sel).filter (fun q => q.2)).map (fun q => q.1)

/-- The spline fitter's data: selected rows as
`(x, y, value, w0/uncertainty)`. -/
def spline_data (pix : List PixRow) (sel : List Bool) (w0 : ℚ) :
    List (ℚ × ℚ × ℚ × ℚ) :=
  (sel_rows pix sel).map (fun smp => (smp.x, smp.y, smp.val, w0 / smp.err))

/-- The state after `m` passes of `make_psf`'s loop: the most recent fitted
spline (junk for `m = 0`, where the source would raise `NameError`) and the
current selection (initially all-true). -/
def make_psf_iter (fitO : List ℚ → ℕ → List (ℚ × ℚ × ℚ × ℚ) → (ℚ → ℚ → ℚ))
    (std : List ℚ → ℚ) (pix : List PixRow) (t : List ℚ) (polydeg : ℕ) (w0 : ℚ) :
    ℕ → ((ℚ → ℚ → ℚ) × List Bool)
  | 0 => (fun _ _ => 0, List.replicate pix.length true)
  | m + 1 =>
    let prev := make_psf_iter fitO std pix t polydeg w0 m
    let spl := fitO t polydeg (spline_data pix prev.2 w0)
    (spl, filter_pix std spl pix 3)

/-!
## Synthetic background renderer `star_bg` (src/syntstar.py lines 14-161)

The catalog arrays (`xpos`, `ypos`, `fscale`) are loaded by the excluded FITS
I/O method and are modelled as given functions of the entry index.  Floating
trigonometry is abstracted: the per-entry rotation `rotate_position` is a
functional parameter `rot` (entry x, entry y, roll angle ↦ rotated offsets),
and `np.rad2deg` a functional parameter `rad2deg`.  Images are total functions
`ℤ → ℤ → ℚ` supported on `[0, rows) × [0, cols)`; pixel `(r, c)` is row `r`,
column `c`.  The `ndim == 1` reshape of the source is a no-op for a pure
surface function and is omitted.
-/

/-- The immutable catalog state of a `star_bg` object. -/
structure StarCat where
  xpos : ℕ → ℚ
  ypos : ℕ → ℚ
  fscale : ℕ → ℚ
  catsize : ℕ
  shape : ℤ × ℤ

/-- The per-star PSF evaluation radius, tiered by the star's flux ratio and
capped by `max_psf_rad` (src/syntstar.py lines 98-103). -/
def psf_rad_of (fs : ℚ) (max_psf_rad : ℤ) : ℤ :=
  if fs > 1 / 10 then min 70 max_psf_rad
  else if fs > 1 / 1000 then min 50 max_psf_rad
  else min 30 max_psf_rad

/-- The contribution of one catalog star to the output image
(src/syntstar.py lines 104-126): integer stamp centre `(int(x0+dx),
int(y0+dy))`, skip entirely (zero contribution) when the stamp falls outside
the image, otherwise clip the stamp to the image, evaluate the PSF on the
local offsets, zero samples outside the per-star circular radius, and scale by
the star's flux ratio. -/
def star_contrib (psf_fun : ℚ → ℚ → ℚ) (shape : ℤ × ℤ) (x0 y0 dx dy fs : ℚ)
    (psf_rad : ℤ) : ℤ → ℤ → ℚ :=
  let i := int_trunc (x0 + dx)
  let i0 := i - psf_rad
  if shape.2 ≤ i0 then fun _ _ => 0
  else
    let i1 := i + psf_rad
    if i1 ≤ 0 then fun _ _ => 0
    else
      let j := int_trunc (y0 + dy)
      let j0 := j - psf_rad
      if shape.1 ≤ j0 then fun _ _ => 0
      else
        let j1 := j + psf_rad
        if j1 ≤ 0 then fun _ _ => 0
        else fun r c =>
          if max i0 0 ≤ c ∧ c < min i1 shape.2 ∧ max j0 0 ≤ r ∧ r < min j1 shape.1 then
            if (psf_rad : ℚ) ^ 2 < ((c : ℚ) - x0 - dx) ^ 2 + ((r : ℚ) - y0 - dy) ^ 2
            then 0
            else fs * psf_fun ((r : ℚ) - y0 - dy) ((c : ℚ) - x0 - dx)
          else 0

/-- The catalog entries visited by `image`: `range(target, catsize)` unless
`single_id` narrows to one entry. -/
def render_ids (cat : StarCat) (target : ℕ) (single_id : Option ℕ) : List ℕ :=
  match single_id with
  | none => List.range' target (cat.catsize - target)
  | some k => [k]

/-- Translation of `star_bg.image` (src/syntstar.py lines 71-127): rotate the
catalog by the roll angle, skip stars fainter than `limflux`, and accumulate
each remaining star's clipped stamp contribution additively into a zero
image. -/
def image (rot : ℚ → ℚ → ℚ → ℚ × ℚ) (cat : StarCat) (x0 y0 rolldeg : ℚ)
    (psf_fun : ℚ → ℚ → ℚ) (shape? : Option (ℤ × ℤ)) (target : ℕ) (limflux : ℚ)
    (single_id : Option ℕ) (max_psf_rad : ℤ) : ℤ → ℤ → ℚ :=
  let shape := shape?.getD cat.shape
  (render_ids cat target single_id).foldl
    (fun img m =>
      if cat.fscale m < limflux then img
      else fun r c => img r c +
        star_contrib psf_fun shape x0 y0
          (rot (cat.xpos m) (cat.ypos m) rolldeg).1
          (rot (cat.xpos m) (cat.ypos m) rolldeg).2
          (cat.fscale m) (psf_rad_of (cat.fscale m) max_psf_rad) r c)
    (fun _ _ => 0)

/-- Translation of `star_bg.rotblur` (src/syntstar.py lines 130-148): average
`N = int(blurdeg/resolution) + 1` renders across roll angles
`rolldeg + 0.5·blurdeg·linspace(-1, 1, N)`, with
`resolution = rad2deg(1/max(shape))/oversample`. -/
def rotblur (rot : ℚ → ℚ → ℚ → ℚ × ℚ) (rad2deg : ℚ → ℚ) (cat : StarCat)
    (x0 y0 rolldeg blurdeg : ℚ) (psf_fun : ℚ → ℚ → ℚ) (oversample : ℚ)
    (shape? : Option (ℤ × ℤ)) (target : ℕ) (limflux : ℚ) (single_id : Option ℕ)
    (max_psf_rad : ℤ) : ℤ → ℤ → ℚ :=
  let shape := shape?.getD cat.shape
  let resolution := rad2deg (1 / (max shape.1 shape.2 : ℚ)) / oversample
  let N := (int_trunc (blurdeg / resolution)).toNat + 1
  ((np_linspace (-1) 1 N).map (fun s' => rolldeg + 1 / 2 * blurdeg * s')).foldl
    (fun img roll => fun r c => img r c +
      image rot cat x0 y0 roll psf_fun (some shape) target limflux single_id
        max_psf_rad r c / (N : ℚ))
    (fun _ _ => 0)

/-- Translation of `make_psf` (src/psf_worker.py lines 16-35): knot grid
`t = linspace(-subrad, subrad, int(2·subrad+1))` with `subrad = radius - 1`,
per-sample weights `w0/err` with `w0 = nanmedian(err)` computed once from all
samples, `niter` fit/filter passes starting from the all-true selection, and
only the final spline surface returned. -/
def make_psf (fitO : List ℚ → ℕ → List (ℚ × ℚ × ℚ × ℚ) → (ℚ → ℚ → ℚ))
    (std : List ℚ → ℚ) (pix : List PixRow) (radius : ℚ) (polydeg niter : ℕ) :
    ℚ → ℚ → ℚ :=
  let t := np_linspace (-(radius - 1)) (radius - 1)
    (int_trunc (2 * (radius - 1) + 1)).toNat
  (make_psf_iter fitO std pix t polydeg (median (pix.map PixRow.err)) niter).1

end PIPE

namespace PIPE

theorem rsum_eq_zero {k : ℕ} {f : ℕ → ℚ} (h : ∀ i, i < k → f i = 0) :
    rsum k f = 0 := by
  apply List.sum_eq_zero
  intro x hx
  obtain ⟨i, hi, rfl⟩ := List.mem_map.mp hx
  exact h i (List.mem_range.mp hi)

theorem apt0q_eq_zero {n : ℕ} {A : BinaryArgs n} {p : Pix n}
    (h : A.psfrad ^ 2 ≤ d0sq A p) : apt0q A p = 0 := by
  simp [apt0q, apt0, not_lt.mpr h]

theorem apt1q_eq_zero {n : ℕ} {A : BinaryArgs n} {p : Pix n}
    (h : A.psfrad ^ 2 ≤ d1sq A p) : apt1q A p = 0 := by
  simp [apt1q, apt1, not_lt.mpr h]

/-- Claim C1 (counterexample): on a concrete input whose flux normalizer
`wsum0` is exactly zero, `fit_binary` does **not** substitute 1.0 before
dividing: the raw weight is 1, yet the returned coefficient vector is not the
weights divided by 1 (it is the unnormalized division by the zero normalizer,
which exact arithmetic renders as 0). -/
theorem fit_binary_no_clamp_counterexample :
    fit_binary_wsum0 exBinaryArgs = 0 ∧
    fit_binary_w exBinaryArgs 0 = 1 ∧
    (fit_binary exBinaryArgs).coeffs0 = [0] ∧
    (fit_binary exBinaryArgs).coeffs0 ≠
      (List.range exBinaryArgs.psf_list0.length).map
        (fun m => fit_binary_w exBinaryArgs m / 1) := by
  have h0 : fit_binary_wsum0 exBinaryArgs = 0 := by
    show rsum 1 _ = 0
    simp [rsum, exBinaryArgs]
  have hw : fit_binary_w exBinaryArgs 0 = 1 := rfl
  have hc : (fit_binary exBinaryArgs).coeffs0 = [0] := by
    show (List.range 1).map
      (fun m => fit_binary_w exBinaryArgs m / fit_binary_wsum0 exBinaryArgs) = [0]
    rw [h0]
    simp
  have hr : (List.range exBinaryArgs.psf_list0.length).map
      (fun m => fit_binary_w exBinaryArgs m / 1) = [1] := by
    show (List.range 1).map _ = [1]
    simp [List.range_succ, hw]
  refine ⟨h0, hw, hc, ?_⟩
  rw [hc, hr]
  intro hcontra
  norm_num at hcontra

/-- Claim C1 (amended): in `fit_binary` the per-source flux-scales and
coefficient vectors are computed with the **raw** normalizers `wsum0`/`wsum1`
(the psf-integral-weighted weight sums), with no degenerate-normalization
recovery: unlike the single-source fitter, no substitution of 1.0 happens when
a normalizer is NaN or exactly zero, and the division is performed
regardless. -/
theorem fit_binary_normalization_raw {n : ℕ} (A : BinaryArgs n) :
    (fit_binary A).coeffs0 = (List.range A.psf_list0.length).map
        (fun m => fit_binary_w A m / fit_binary_wsum0 A) ∧
    (fit_binary A).coeffs1 = (List.range A.psf_list0.length).map
        (fun m => fit_binary_w A (A.psf_list0.length + m) / fit_binary_wsum1 A) ∧
    (fit_binary A).flux0 =
      rsum (Nk A.krn_rad) (fit_binary_kvec3 A) * fit_binary_wsum0 A ∧
    (fit_binary A).flux1 =
      rsum (Nk A.krn_rad) (fun m => fit_binary_kvec3 A (Nk A.krn_rad + m)) *
        fit_binary_wsum1 A :=
  ⟨rfl, rfl, rfl, rfl⟩

/-- Claim C2: a frame pixel belongs to the shared fit aperture of `fit_binary`
iff its (squared) distance from at least one of the two source centres is at
most `fitrad²` — it is excluded only when it is farther than `fitrad` from
both — intersected with the external mask when one is given; and each source's
PSF contribution to every design-matrix column of the three passes and to the
final composite images is zeroed at every pixel outside that source's own
`psfrad` disk. -/
theorem fit_binary_aperture_and_disk_masks {n : ℕ} (A : BinaryArgs n) (p : Pix n) :
    (fit_binary_aperture A p = true ↔
      ((d0sq A p ≤ A.fitrad ^ 2 ∨ d1sq A p ≤ A.fitrad ^ 2) ∧
        ∀ m, A.mask = some m → m p = true)) ∧
    (A.psfrad ^ 2 ≤ d0sq A p →
      (∀ c, c < Nk A.krn_rad → fit_binary_psfs1 A c p = 0) ∧
      (∀ c, c < A.psf_list0.length → fit_binary_psfs2 A c p = 0) ∧
      (∀ c, c < Nk A.krn_rad → fit_binary_psfs3 A c p = 0) ∧
      (fit_binary A).psf0 p = 0) ∧
    (A.psfrad ^ 2 ≤ d1sq A p →
      (∀ c, Nk A.krn_rad ≤ c → c < 2 * Nk A.krn_rad → fit_binary_psfs1 A c p = 0) ∧
      (∀ c, A.psf_list0.length ≤ c → c < 2 * A.psf_list0.length →
        fit_binary_psfs2 A c p = 0) ∧
      (∀ c, Nk A.krn_rad ≤ c → c < 2 * Nk A.krn_rad → fit_binary_psfs3 A c p = 0) ∧
      (fit_binary A).psf1 p = 0) := by
  refine ⟨?_, ?_, ?_⟩
  · cases hm : A.mask with
    | none =>
      simp only [fit_binary_aperture, hm, Bool.and_true, Bool.not_eq_true',
        Bool.and_eq_false_iff, decide_eq_false_iff_not, not_lt]
      constructor
      · intro h
        exact ⟨h.imp id id, by intro m hm'; cases hm'⟩
      · intro h
        exact h.1.imp id id
    | some m =>
      simp only [fit_binary_aperture, hm, Bool.and_eq_true, Bool.not_eq_true',
        Bool.and_eq_false_iff, decide_eq_false_iff_not, not_lt]
      constructor
      · intro h
        exact ⟨h.1.imp id id, by intro m' hm'; cases hm'; exact h.2⟩
      · intro h
        exact ⟨h.1.imp id id, h.2 m rfl⟩
  · intro h
    have hz := apt0q_eq_zero h
    refine ⟨?_, ?_, ?_, ?_⟩
    · intro c hc; simp [fit_binary_psfs1, hc, hz]
    · intro c hc
      simp only [fit_binary_psfs2, if_pos hc]
      rw [rsum_eq_zero (by intro i hi; rw [hz]; ring)]
      simp
    · intro c hc
      simp only [fit_binary_psfs3, if_pos hc]
      rw [rsum_eq_zero (by intro i hi; rw [hz]; ring)]
      simp
    · show rsum _ _ = 0
      apply rsum_eq_zero
      intro i hi
      apply rsum_eq_zero
      intro j hj
      rw [hz]; ring
  · intro h
    have hz := apt1q_eq_zero h
    refine ⟨?_, ?_, ?_, ?_⟩
    · intro c hc1 hc2
      simp [fit_binary_psfs1, Nat.not_lt.mpr hc1, hc2, hz]
    · intro c hc1 hc2
      simp only [fit_binary_psfs2, if_neg (Nat.not_lt.mpr hc1), if_pos hc2]
      rw [rsum_eq_zero (by intro i hi; rw [hz]; ring)]
      simp
    · intro c hc1 hc2
      simp only [fit_binary_psfs3, if_neg (Nat.not_lt.mpr hc1), if_pos hc2]
      rw [rsum_eq_zero (by intro i hi; rw [hz]; ring)]
      simp
    · show rsum _ _ = 0
      apply rsum_eq_zero
      intro i hi
      apply rsum_eq_zero
      intro j hj
      rw [hz]; ring

/-- Witness for C2: on the concrete instance whose single pixel lies outside
source 0's `psfrad` disk, the final composite image of source 0 vanishes
there. -/
theorem fit_binary_aperture_and_disk_masks_witness :
    (fit_binary exBinaryArgsFar).psf0 (0, 0) = 0 :=
  ((fit_binary_aperture_and_disk_masks exBinaryArgsFar (0, 0)).2.1
    (by norm_num [d0sq, coo_mat, px, py, exBinaryArgsFar, exBinaryArgs])).2.2.2

/-- Claim C3: for every least-squares solve performed by the fitters
(non-negative mode excluded), if the underlying linear solver raises an error
the solve is retried exactly once with identical inputs; the first attempt's
error is not surfaced, an error on the retry propagates to the caller, and
there is never a second retry (the result depends only on the outcomes of the
first two calls). -/
theorem least_square_retry_policy {ε α : Type} (nnls_res : α)
    (lstsq : ℕ → Except ε α) :
    (∀ v, lstsq 0 = Except.ok v →
      least_square nnls_res lstsq false = Except.ok v) ∧
    (∀ e, lstsq 0 = Except.error e →
      least_square nnls_res lstsq false = lstsq 1) ∧
    (∀ e e', lstsq 0 = Except.error e → lstsq 1 = Except.error e' →
      least_square nnls_res lstsq false = Except.error e') ∧
    (∀ g : ℕ → Except ε α, lstsq 0 = g 0 → lstsq 1 = g 1 →
      least_square nnls_res lstsq false = least_square nnls_res g false) := by
  refine ⟨?_, ?_, ?_, ?_⟩
  · intro v hv; simp [least_square, hv]
  · intro e he; simp [least_square, he]
  · intro e e' he he'; simp [least_square, he, he']
  · intro g h0 h1
    simp only [least_square, if_neg (Bool.false_ne_true), ← h0, ← h1]

/-- Witness for C3: a solver that fails on the first call and succeeds on the
retry yields the retry's result. -/
theorem least_square_retry_policy_witness :
    least_square (0 : ℕ)
      (fun i => if i = 0 then Except.error () else Except.ok 5) false =
      (fun i => if i = 0 then (Except.error () : Except Unit ℕ) else Except.ok 5) 1 :=
  (least_square_retry_policy 0 _).2.1 () rfl

/-- Claim C4: for every single-source fit, when `bg_fit = 0` both
least-squares passes include one extra constant column equal to the inverse
noise (so the pass-1 system has `Nk+1` columns and the pass-2 system `Npsf+1`)
and the returned background is the last element (`w[Npsf]`) of the pass-2
weight vector `w`; when `bg_fit` is nonzero no background column is included
in either pass (`Nk` resp. `Npsf` columns, and every column at or beyond those
indices is identically zero) and the returned background is exactly 0. -/
theorem fit_background_column_policy {n : ℕ} (A : FitArgs n) :
    (A.bg_fit = 0 →
      fit_cols1 A = Nk A.krn_rad + 1 ∧
      fit_cols2 A = A.psf_list.length + 1 ∧
      (∀ p, fit_psfs1 A (Nk A.krn_rad) p = 1 / A.noise p) ∧
      (∀ p, fit_psfs2 A A.psf_list.length p = 1 / A.noise p) ∧
      (fit A).bg = fit_w A A.psf_list.length) ∧
    (A.bg_fit ≠ 0 →
      fit_cols1 A = Nk A.krn_rad ∧
      fit_cols2 A = A.psf_list.length ∧
      (∀ c p, Nk A.krn_rad ≤ c → fit_psfs1 A c p = 0) ∧
      (∀ c p, A.psf_list.length ≤ c → fit_psfs2 A c p = 0) ∧
      (fit A).bg = 0) := by
  constructor
  · intro h
    refine ⟨by simp [fit_cols1, h], by simp [fit_cols2, h], ?_, ?_, ?_⟩
    · intro p; simp [fit_psfs1, h]
    · intro p; simp [fit_psfs2, h]
    · simp [fit, h]
  · intro h
    refine ⟨by simp [fit_cols1, h], by simp [fit_cols2, h], ?_, ?_, ?_⟩
    · intro c p hc; simp [fit_psfs1, Nat.not_lt.mpr hc, h]
    · intro c p hc; simp [fit_psfs2, Nat.not_lt.mpr hc, h]
    · simp [fit, h]

/-- Witness for C4: on the concrete instance with `bg_fit = 0` the returned
background is the last pass-2 weight `w[Npsf]`. -/
theorem fit_background_column_policy_witness :
    (fit exFitArgs).bg = fit_w exFitArgs exFitArgs.psf_list.length :=
  ((fit_background_column_policy exFitArgs).1 rfl).2.2.2.2

/-- Claim C5: in the single-source fitter, the returned coefficient vector is
`w` excluding the background element divided by the normalizer
`wsum = Σ psf_integral_m · w_m` clamped to 1 when it is exactly zero; in
particular when `wsum = 0` the divisor is 1 and the fit still returns a full
result (coefficients and flux scale) rather than raising.  (The `np.isnan`
branch of the clamp has no counterpart in exact rational arithmetic, and the
non-fatal printed diagnostic is outside the functional model.) -/
theorem fit_normalizer_clamp {n : ℕ} (A : FitArgs n) :
    (fit A).coeffs = (List.range A.psf_list.length).map
        (fun m => fit_w A m / (if fit_wsum A = 0 then 1 else fit_wsum A)) ∧
    (fit_wsum A = 0 →
      (fit A).coeffs = (List.range A.psf_list.length).map (fun m => fit_w A m / 1) ∧
      (fit A).flux = rsum (Nk A.krn_rad) (fit_kvec A) * 1) := by
  constructor
  · rfl
  · intro h
    constructor
    · simp [fit, h]
    · simp [fit, h]

/-- Witness for C5: on the concrete instance the normalizer is exactly zero
and the returned coefficients are the raw weights divided by the clamped
value 1. -/
theorem fit_normalizer_clamp_witness :
    (fit exFitArgs).coeffs =
      (List.range exFitArgs.psf_list.length).map (fun m => fit_w exFitArgs m / 1) :=
  ((fit_normalizer_clamp exFitArgs).2 (by simp [fit_wsum, exFitArgs, rsum])).1

/-- Claim C6: in every pass of the PSF Library Builder, after fitting the
spline, the kept-sample set for the next pass is exactly the samples with
`|value - fit| < 3·s·(|fit| + k)` where the fit is the spline evaluated at
*every* sample position, `k = 0.1·max(fit)` and
`s = std((value - fit)/(|fit| + k))`; and for `niter ≥ 1` the returned surface
is the fit obtained from the selection after `niter - 1` passes — the
selection computed after the final fit is discarded, only the final spline is
returned. -/
theorem make_psf_iteration_policy
    (fitO : List ℚ → ℕ → List (ℚ × ℚ × ℚ × ℚ) → (ℚ → ℚ → ℚ))
    (std : List ℚ → ℚ) (pix : List PixRow) (radius : ℚ) (polydeg niter : ℕ)
    (h : 1 ≤ niter) :
    make_psf fitO std pix radius polydeg niter =
      fitO (np_linspace (-(radius - 1)) (radius - 1)
          (int_trunc (2 * (radius - 1) + 1)).toNat) polydeg
        (spline_data pix
          (make_psf_iter fitO std pix
            (np_linspace (-(radius - 1)) (radius - 1)
              (int_trunc (2 * (radius - 1) + 1)).toNat)
            polydeg (median (pix.map PixRow.err)) (niter - 1)).2
          (median (pix.map PixRow.err))) ∧
    (∀ t w0 i, (make_psf_iter fitO std pix t polydeg w0 (i + 1)).2 =
      pix.map (fun smp =>
        decide (|smp.val -
            (make_psf_iter fitO std pix t polydeg w0 (i + 1)).1 smp.x smp.y| <
          3 * std (pix.map (fun q =>
              (q.val - (make_psf_iter fitO std pix t polydeg w0 (i + 1)).1 q.x q.y) /
                (|(make_psf_iter fitO std pix t polydeg w0 (i + 1)).1 q.x q.y| +
                  (1 / 10) * npMax (pix.map (fun q' =>
                    (make_psf_iter fitO std pix t polydeg w0 (i + 1)).1 q'.x q'.y))))) *
            (|(make_psf_iter fitO std pix t polydeg w0 (i + 1)).1 smp.x smp.y| +
              (1 / 10) * npMax (pix.map (fun q' =>
                (make_psf_iter fitO std pix t polydeg w0 (i + 1)).1 q'.x q'.y)))))) := by
  constructor
  · cases niter with
    | zero => exact absurd h (by omega)
    | succ m =>
      simp only [Nat.succ_sub_one]
      rfl
  · intro t w0 i
    rfl

/-- Witness for C6: one pass on an empty sample table returns the fit of the
initial all-true selection. -/
theorem make_psf_iteration_policy_witness :
    make_psf (fun _ _ _ => fun _ _ => (0 : ℚ)) (fun _ => 0) ([] : List PixRow) 1 0 1 =
      (fun _ _ _ => fun _ _ => (0 : ℚ))
        (np_linspace (-(1 - 1)) (1 - 1) (int_trunc (2 * (1 - 1) + 1)).toNat) 0
        (spline_data ([] : List PixRow)
          (make_psf_iter (fun _ _ _ => fun _ _ => (0 : ℚ)) (fun _ => 0)
            ([] : List PixRow)
            (np_linspace (-(1 - 1)) (1 - 1) (int_trunc (2 * (1 - 1) + 1)).toNat)
            0 (median (([] : List PixRow).map PixRow.err)) (1 - 1)).2
          (median (([] : List PixRow).map PixRow.err))) :=
  (make_psf_iteration_policy (fun _ _ _ => fun _ _ => (0 : ℚ)) (fun _ => 0)
    ([] : List PixRow) 1 0 1 (Nat.le_refl 1)).1

/-- Claim C7: for all coordinates (x, y) and every angle θ,
`derotate_position (rotate_position x y θ) θ = (x, y)`, where the forward
rotation is exactly `(x·cosθ + y·sinθ, -x·sinθ + y·cosθ)` (angle in degrees,
converted by `π/180`) and the inverse is the same transform applied with `-θ`;
exact over real arithmetic. -/
theorem rotate_derotate_round_trip (x y θ : ℝ) :
    derotate_position (rotate_position x y θ).1 (rotate_position x y θ).2 θ = (x, y) ∧
    rotate_position x y θ =
      (x * Real.cos (θ * (Real.pi / 180)) + y * Real.sin (θ * (Real.pi / 180)),
       -x * Real.sin (θ * (Real.pi / 180)) + y * Real.cos (θ * (Real.pi / 180))) := by
  constructor
  · have h := Real.sin_sq_add_cos_sq (θ * (Real.pi / 180))
    unfold derotate_position rotate_position
    have hneg : -θ * (Real.pi / 180) = -(θ * (Real.pi / 180)) := by ring
    simp only [hneg, Real.cos_neg, Real.sin_neg, Prod.mk.injEq]
    constructor
    · linear_combination x * h
    · linear_combination y * h
  · rfl

theorem foldl_image_sum (l : List ℕ) (Q : ℕ → Prop) [DecidablePred Q]
    (F : ℕ → ℤ → ℤ → ℚ) (img0 : ℤ → ℤ → ℚ) (r c : ℤ) :
    (l.foldl (fun img m =>
        if Q m then img else fun r' c' => img r' c' + F m r' c') img0) r c =
      img0 r c + ((l.filter (fun m => !decide (Q m))).map (fun m => F m r c)).sum := by
  induction l generalizing img0 with
  | nil => simp
  | cons a l ih =>
    by_cases hq : Q a
    · simp [List.foldl_cons, hq, ih]
    · simp [List.foldl_cons, hq, ih, add_assoc]

theorem image_apply (rot : ℚ → ℚ → ℚ → ℚ × ℚ) (cat : StarCat) (x0 y0 rolldeg : ℚ)
    (psf_fun : ℚ → ℚ → ℚ) (shape? : Option (ℤ × ℤ)) (target : ℕ) (limflux : ℚ)
    (single_id : Option ℕ) (max_psf_rad : ℤ) (r c : ℤ) :
    image rot cat x0 y0 rolldeg psf_fun shape? target limflux single_id
        max_psf_rad r c =
      (((render_ids cat target single_id).filter
          (fun m => !decide (cat.fscale m < limflux))).map
        (fun m => star_contrib psf_fun (shape?.getD cat.shape) x0 y0
          (rot (cat.xpos m) (cat.ypos m) rolldeg).1
          (rot (cat.xpos m) (cat.ypos m) rolldeg).2
          (cat.fscale m) (psf_rad_of (cat.fscale m) max_psf_rad) r c)).sum := by
  unfold image
  rw [foldl_image_sum (render_ids cat target single_id)
    (fun m => cat.fscale m < limflux)]
  simp

/-- Claim C8: a star whose stamp (the square of half-side `psf_rad` around its
rotated integer position) lies entirely outside the image bounds contributes
the zero function — it is skipped silently, the output is a total function and
is unaffected by that star; the code's skip condition is equivalent to the
geometric disjointness of the stamp from the image (for positive radius and
image size); every star's contribution is clipped to the image (support inside
the bounds); and the rendered image is the pointwise sum of the per-star
contributions (overlapping stamps sum). -/
theorem star_stamp_oob_policy :
    (∀ (psf_fun : ℚ → ℚ → ℚ) (shape : ℤ × ℤ) (x0 y0 dx dy fs : ℚ) (rad : ℤ),
      (shape.2 ≤ int_trunc (x0 + dx) - rad ∨ int_trunc (x0 + dx) + rad ≤ 0 ∨
       shape.1 ≤ int_trunc (y0 + dy) - rad ∨ int_trunc (y0 + dy) + rad ≤ 0) →
      star_contrib psf_fun shape x0 y0 dx dy fs rad = fun _ _ => 0) ∧
    (∀ (shape : ℤ × ℤ) (i j rad : ℤ), 1 ≤ rad → 0 < shape.1 → 0 < shape.2 →
      ((shape.2 ≤ i - rad ∨ i + rad ≤ 0 ∨ shape.1 ≤ j - rad ∨ j + rad ≤ 0) ↔
        (∀ r c : ℤ, j - rad ≤ r → r < j + rad → i - rad ≤ c → c < i + rad →
          ¬(0 ≤ r ∧ r < shape.1 ∧ 0 ≤ c ∧ c < shape.2)))) ∧
    (∀ (psf_fun : ℚ → ℚ → ℚ) (shape : ℤ × ℤ) (x0 y0 dx dy fs : ℚ) (rad r c : ℤ),
      star_contrib psf_fun shape x0 y0 dx dy fs rad r c ≠ 0 →
      (0 ≤ r ∧ r < shape.1 ∧ 0 ≤ c ∧ c < shape.2)) ∧
    (∀ rot cat x0 y0 rolldeg psf_fun shape? target limflux single_id
        max_psf_rad (r c : ℤ),
      image rot cat x0 y0 rolldeg psf_fun shape? target limflux single_id
          max_psf_rad r c =
        (((render_ids cat target single_id).filter
            (fun m => !decide (cat.fscale m < limflux))).map
          (fun m => star_contrib psf_fun (shape?.getD cat.shape) x0 y0
            (rot (cat.xpos m) (cat.ypos m) rolldeg).1
            (rot (cat.xpos m) (cat.ypos m) rolldeg).2
            (cat.fscale m) (psf_rad_of (cat.fscale m) max_psf_rad) r c)).sum) := by
  refine ⟨?_, ?_, ?_, fun rot cat x0 y0 rolldeg pf s t lf sid mr r c =>
    image_apply rot cat x0 y0 rolldeg pf s t lf sid mr r c⟩
  · intro pf shape x0 y0 dx dy fs rad h
    unfold star_contrib
    by_cases h1 : shape.2 ≤ int_trunc (x0 + dx) - rad
    · simp [h1]
    · by_cases h2 : int_trunc (x0 + dx) + rad ≤ 0
      · simp [h1, h2]
      · by_cases h3 : shape.1 ≤ int_trunc (y0 + dy) - rad
        · simp [h1, h2, h3]
        · by_cases h4 : int_trunc (y0 + dy) + rad ≤ 0
          · simp [h1, h2, h3, h4]
          · tauto
  · intro shape i j rad hrad hH hW
    constructor
    · intro h r c hr1 hr2 hc1 hc2
      rcases h with h | h | h | h <;> omega
    · intro hall
      by_contra hd
      push_neg at hd
      obtain ⟨h1, h2, h3, h4⟩ := hd
      exact hall (max (j - rad) 0) (max (i - rad) 0)
        (le_max_left _ _) (by omega) (le_max_left _ _) (by omega)
        ⟨by omega, by omega, by omega, by omega⟩
  · intro pf shape x0 y0 dx dy fs rad r c h
    unfold star_contrib at h
    by_cases h1 : shape.2 ≤ int_trunc (x0 + dx) - rad
    · simp [h1] at h
    · by_cases h2 : int_trunc (x0 + dx) + rad ≤ 0
      · simp [h1, h2] at h
      · by_cases h3 : shape.1 ≤ int_trunc (y0 + dy) - rad
        · simp [h1, h2, h3] at h
        · by_cases h4 : int_trunc (y0 + dy) + rad ≤ 0
          · simp [h1, h2, h3, h4] at h
          · simp only [h1, h2, h3, h4, if_false] at h
            by_cases h5 : max (int_trunc (x0 + dx) - rad) 0 ≤ c ∧
                c < min (int_trunc (x0 + dx) + rad) shape.2 ∧
                max (int_trunc (y0 + dy) - rad) 0 ≤ r ∧
                r < min (int_trunc (y0 + dy) + rad) shape.1
            · obtain ⟨hc1, hc2, hr1, hr2⟩ := h5
              exact ⟨by omega, by omega, by omega, by omega⟩
            · rw [if_neg h5] at h
              exact absurd rfl h

/-- Witness for C8: a star whose stamp lies entirely to the right of a 1×1
image contributes the zero function. -/
theorem star_stamp_oob_policy_witness :
    star_contrib (fun _ _ => 0) ((1 : ℤ), (1 : ℤ)) 0 0 5 0 1 1 = fun _ _ => 0 :=
  star_stamp_oob_policy.1 (fun _ _ => 0) (1, 1) 0 0 5 0 1 1
    (Or.inl (by norm_num [int_trunc]))

/-- Claim C9: the per-star PSF evaluation radius is tiered by the star's flux
ratio and capped by `max_psf_rad`: flux ratio > 0.1 gives `min 70`,
1e-3 < ratio ≤ 0.1 gives `min 50`, ratio ≤ 1e-3 gives `min 30`; in particular
ratio 0.5 gets `min 70` and ratio 1e-4 gets `min 30`; and stars with flux
ratio strictly below `limflux` are not drawn at all (the rendered image is the
sum over the stars passing the `limflux` filter only). -/
theorem psf_rad_tiering :
    (∀ (fs : ℚ) (M : ℤ), 1 / 10 < fs → psf_rad_of fs M = min 70 M) ∧
    (∀ (fs : ℚ) (M : ℤ), 1 / 1000 < fs → fs ≤ 1 / 10 →
      psf_rad_of fs M = min 50 M) ∧
    (∀ (fs : ℚ) (M : ℤ), fs ≤ 1 / 1000 → psf_rad_of fs M = min 30 M) ∧
    (∀ M : ℤ, psf_rad_of (1 / 2) M = min 70 M) ∧
    (∀ M : ℤ, psf_rad_of (1 / 10000) M = min 30 M) ∧
    (∀ rot cat x0 y0 rolldeg psf_fun shape? target limflux single_id
        max_psf_rad (r c : ℤ),
      image rot cat x0 y0 rolldeg psf_fun shape? target limflux single_id
          max_psf_rad r c =
        (((render_ids cat target single_id).filter
            (fun m => !decide (cat.fscale m < limflux))).map
          (fun m => star_contrib psf_fun (shape?.getD cat.shape) x0 y0
            (rot (cat.xpos m) (cat.ypos m) rolldeg).1
            (rot (cat.xpos m) (cat.ypos m) rolldeg).2
            (cat.fscale m) (psf_rad_of (cat.fscale m) max_psf_rad) r c)).sum) := by
  refine ⟨?_, ?_, ?_, ?_, ?_, fun rot cat x0 y0 rolldeg pf s t lf sid mr r c =>
    image_apply rot cat x0 y0 rolldeg pf s t lf sid mr r c⟩
  · intro fs M h
    simp only [psf_rad_of]
    rw [if_pos h]
  · intro fs M h1 h2
    simp only [psf_rad_of]
    rw [if_neg (not_lt.mpr h2), if_pos h1]
  · intro fs M h
    simp only [psf_rad_of]
    rw [if_neg (not_lt.mpr (h.trans (by norm_num))), if_neg (not_lt.mpr h)]
  · intro M
    norm_num [psf_rad_of]
  · intro M
    norm_num [psf_rad_of]

/-- Witness for C9: a star with flux ratio 1/5 exceeds 0.1, so its radius is
`min 70 5` when capped at 5. -/
theorem psf_rad_tiering_witness :
    psf_rad_of (1 / 5) 5 = min 70 5 :=
  psf_rad_tiering.1 (1 / 5) 5 (by norm_num)

/-- Claim C10: calling `rotblur` with `blurdeg = 0` averages exactly one
render (`N = 1`) taken at exactly the requested roll angle, so it returns the
same image as `image` with the corresponding arguments. -/
theorem rotblur_zero_blur (rot : ℚ → ℚ → ℚ → ℚ × ℚ) (rad2deg : ℚ → ℚ)
    (cat : StarCat) (x0 y0 rolldeg : ℚ) (psf_fun : ℚ → ℚ → ℚ) (oversample : ℚ)
    (shape? : Option (ℤ × ℤ)) (target : ℕ) (limflux : ℚ) (single_id : Option ℕ)
    (max_psf_rad : ℤ) :
    rotblur rot rad2deg cat x0 y0 rolldeg 0 psf_fun oversample shape? target
        limflux single_id max_psf_rad =
      image rot cat x0 y0 rolldeg psf_fun shape? target limflux single_id
        max_psf_rad := by
  funext r c
  unfold rotblur
  simp only [zero_div, int_trunc, le_refl, if_true, Int.floor_zero,
    Int.toNat_zero, Nat.zero_add, np_linspace, List.range_succ, List.range_zero,
    List.nil_append, List.map_cons, List.map_nil, Nat.le_refl, if_pos,
    List.foldl_cons, List.foldl_nil, Nat.cast_one, div_one, mul_zero, zero_mul,
    add_zero, zero_add]
  unfold image
  simp [Option.getD_some]

end PIPE
